import Mathlib

/-!
Verification of the DAGstatus status-file parser (htcondenser, `DAGstatus.py`).

Python strings are embedded as `List Char` (`PyStr`); the Python string
operations used by the program (`str.strip`, `str.split` on a one-character
separator, `str.replace` on one- and two-character patterns, `str.startswith`,
the `in` test for a single character, `int(...)`) are given structurally
recursive definitions with the same semantics.  Python exceptions are embedded
as an error type `PyError` and fallible code returns `Except PyError`.
The float expression `"{0:.1f}".format(100. * a / b)` is embedded as exact
rational arithmetic rounded half-to-even to one decimal place (`format1f`),
which agrees with the CPython behaviour whenever the quotient is exactly
representable, and raises `zeroDivisionError` for a zero denominator exactly
as the Python code does.
-/

set_option maxRecDepth 20000

abbrev PyStr := List Char

def pys (s : String) : PyStr := s.toList

/-- Whitespace characters stripped by Python's `str.strip()`. -/
def isPySpace (c : Char) : Bool :=
  c = ' ' || c = '\t' || c = '\n' || c = '\r' || c = '\x0b' || c = '\x0c'

/-- Remove leading Python whitespace. -/
def ltrim : PyStr → PyStr
  | [] => []
  | x :: t => if isPySpace x then ltrim t else x :: t

/-- Remove trailing Python whitespace. -/
def rtrim (xs : PyStr) : PyStr := (ltrim xs.reverse).reverse

/-- Python `str.strip()`: remove whitespace from both ends. -/
def pytrim (xs : PyStr) : PyStr := rtrim (ltrim xs)

/-- Python `str.split(sep)` for a one-character separator. -/
def splitChar (sep : Char) : PyStr → List PyStr
  | [] => [[]]
  | x :: rest =>
    let r := splitChar sep rest
    if x = sep then [] :: r
    else
      match r with
      | [] => [[x]]
      | h :: t => (x :: h) :: t

/-- Python `str.replace(p, '')` for a one-character pattern `p`. -/
def replace1 (p : Char) : PyStr → PyStr
  | [] => []
  | x :: t => if x = p then replace1 p t else x :: replace1 p t

/-- Python `str.replace(p1 ++ p2, '')` for a two-character pattern:
left-to-right, non-overlapping occurrences are removed. -/
def replace2 (p1 p2 : Char) : PyStr → PyStr
  | [] => []
  | [x] => [x]
  | x :: y :: t =>
    if x = p1 ∧ y = p2 then replace2 p1 p2 t else x :: replace2 p1 p2 (y :: t)

/-- Python `line.startswith(p)`. -/
def pyStartswith : PyStr → PyStr → Bool
  | [], _ => true
  | _ :: _, [] => false
  | a :: p, b :: xs => a = b && pyStartswith p xs

/-- Python `c in line` for a one-character `c`. -/
def pyContains (c : Char) : PyStr → Bool
  | [] => false
  | x :: t => x = c || pyContains c t

/-- `strip_comments` from DAGstatus.py:
`line.replace("/*", "").replace("*/", "").strip()`. -/
def strip_comments (line : PyStr) : PyStr :=
  pytrim (replace2 '*' '/' (replace2 '/' '*' line))

/-- `strip_doublequotes` from DAGstatus.py: `line.replace('"', '')`. -/
def strip_doublequotes (line : PyStr) : PyStr :=
  replace1 '"' line

/-- The Python exceptions that the embedded code can raise. -/
inductive PyError where
  | indexError
  | keyError (key : PyStr)
  | valueError
  | zeroDivisionError
  | attributeError
deriving DecidableEq

deriving instance DecidableEq for Except

/-- The `Line` namedtuple: `Line = namedtuple('Line', 'key value comment')`. -/
structure Line where
  key : PyStr
  value : PyStr
  comment : PyStr
deriving DecidableEq

/-- The tail of `interpret_line` on the already-split-and-stripped `other`
list: `value = strip_doublequotes(other[0])`, and the comment is taken from
`other[1]` exactly when `len(other) == 2`, else it is empty. -/
def lineOther (p0 : PyStr) : List PyStr → Except PyError Line
  | [] => .error .indexError
  | [v] => .ok ⟨p0, strip_doublequotes v, []⟩
  | [v, c] => .ok ⟨p0, strip_doublequotes v, strip_doublequotes (strip_comments c)⟩
  | v :: _ :: _ :: _ => .ok ⟨p0, strip_doublequotes v, []⟩

/-- `interpret_line` from DAGstatus.py.  `raw.split('=')` splits on every
`=` and `parts[1]` is used; a line with no `=` raises a Python `IndexError`
at `parts[1]`, embedded as `Except.error .indexError`. -/
def interpret_line (line : PyStr) : Except PyError Line :=
  let raw := pytrim (replace1 '\n' line)
  match (splitChar '=' raw).map pytrim with
  | p0 :: p1 :: _ => lineOther p0 ((splitChar ';' p1).map pytrim)
  | _ => .error .indexError

/-- Digits-only parse used by `pyInt`. -/
def pyDigits (xs : PyStr) : Option Nat :=
  if xs ≠ [] ∧ xs.all Char.isDigit then
    some (xs.foldl (fun n c => 10 * n + (c.toNat - 48)) 0)
  else none

/-- Python `int(s)`: strip whitespace, optional sign, decimal digits;
anything else raises `ValueError`. -/
def pyInt (s : PyStr) : Except PyError Int :=
  let t := pytrim s
  match t with
  | '-' :: ds =>
    match pyDigits ds with
    | some n => .ok (-(n : Int))
    | none => .error .valueError
  | '+' :: ds =>
    match pyDigits ds with
    | some n => .ok (n : Int)
    | none => .error .valueError
  | ds =>
    match pyDigits ds with
    | some n => .ok (n : Int)
    | none => .error .valueError

/-- Round `a / b` (with `b > 0`) to the nearest integer, ties to even —
the rounding used by Python's `"{0:.1f}".format`. -/
def divRHE (a b : Int) : Int :=
  let q := Int.fdiv a b
  let r := a - q * b
  if b < 2 * r then q + 1
  else if 2 * r < b then q
  else if q % 2 = 0 then q else q + 1

def natDigits (n : Nat) : PyStr := Nat.toDigits 10 n

/-- Render `num / den` (with `den > 0`) to one decimal place, rounding half
to even: the embedding of `"{0:.1f}".format`. -/
def format1f (num den : Int) : PyStr :=
  let m := divRHE (10 * num) den
  if m < 0 then '-' :: (natDigits ((-m).toNat / 10) ++ '.' :: natDigits ((-m).toNat % 10))
  else natDigits (m.toNat / 10) ++ '.' :: natDigits (m.toNat % 10)

/-- The expression `"{0:.1f}".format(100. * num / den)`: raises
`ZeroDivisionError` when `den = 0`, as the Python float division does. -/
def pctString (num den : Int) : Except PyError PyStr :=
  if den = 0 then .error .zeroDivisionError
  else if den < 0 then .ok (format1f (-(100 * num)) (-den))
  else .ok (format1f (100 * num) den)

/-- The `NodeStatus` ClassAd class. -/
structure NodeStatus where
  node : PyStr
  node_status : PyStr
  status_details : PyStr
  retry_count : Int
  job_procs_queued : Int
  job_procs_held : Int
deriving DecidableEq

/-- The `DagStatus` ClassAd class.  `nodes_done_percent` is computed in
`__init__`; `node_statuses` starts as `[]` and is assigned after parsing. -/
structure DagStatus where
  timestamp : PyStr
  dag_status : PyStr
  nodes_total : Int
  nodes_done : Int
  nodes_pre : Int
  nodes_queued : Int
  nodes_post : Int
  nodes_ready : Int
  nodes_unready : Int
  nodes_failed : Int
  job_procs_held : Int
  job_procs_idle : Int
  nodes_done_percent : PyStr
  node_statuses : List NodeStatus
deriving DecidableEq

/-- The `StatusEnd` ClassAd class. -/
structure StatusEnd where
  end_time : PyStr
  next_update : PyStr
deriving DecidableEq

/-- `NodeStatus.__init__`: the three `int(...)` conversions can raise
`ValueError`. -/
def mkNodeStatus (node node_status status_details retry_count job_procs_queued
    job_procs_held : PyStr) : Except PyError NodeStatus := do
  let rc ← pyInt retry_count
  let jq ← pyInt job_procs_queued
  let jh ← pyInt job_procs_held
  .ok ⟨strip_doublequotes node, strip_doublequotes node_status,
       replace1 '"' status_details, rc, jq, jh⟩

/-- `DagStatus.__init__`: the `int(...)` conversions run in source order and
then `nodes_done_percent` is computed, which divides by `nodes_total`. -/
def mkDagStatus (timestamp dag_status nodes_total nodes_done nodes_pre
    nodes_queued nodes_post nodes_ready nodes_unready nodes_failed
    job_procs_held job_procs_idle : PyStr) : Except PyError DagStatus := do
  let nt ← pyInt nodes_total
  let nd ← pyInt nodes_done
  let np ← pyInt nodes_pre
  let nq ← pyInt nodes_queued
  let npo ← pyInt nodes_post
  let nr ← pyInt nodes_ready
  let nu ← pyInt nodes_unready
  let nf ← pyInt nodes_failed
  let jh ← pyInt job_procs_held
  let ji ← pyInt job_procs_idle
  let pct ← pctString nd nt
  .ok ⟨timestamp, strip_doublequotes dag_status, nt, nd, np, nq, npo, nr, nu,
       nf, jh, ji, pct, []⟩

/-- `StatusEnd.__init__`. -/
def mkStatusEnd (end_time next_update : PyStr) : StatusEnd :=
  ⟨strip_doublequotes end_time, strip_doublequotes next_update⟩

/-- The filter predicate of the `job_procs_running` property. -/
def isRunningNode (n : NodeStatus) : Bool :=
  n.node_status == pys "STATUS_SUBMITTED" && n.status_details == pys "not_idle"

/-- The `job_procs_running` property of `DagStatus`. -/
def DagStatus.job_procs_running (d : DagStatus) : Nat :=
  (d.node_statuses.filter isRunningNode).length

/-- The `nodes_running_percent` property of `DagStatus`. -/
def DagStatus.nodes_running_percent (d : DagStatus) : Except PyError PyStr :=
  pctString (Int.ofNat d.job_procs_running) d.nodes_total

/-- The `contents` dict of `process`, newest binding first. -/
abbrev Contents := List (PyStr × Line)

/-- Python dict subscript `contents[k]`: raises `KeyError(k)` when absent. -/
def lookupC : Contents → PyStr → Except PyError Line
  | [], k => .error (.keyError k)
  | (k2, l) :: rest, k => if k2 = k then .ok l else lookupC rest k

/-- The loop state of `process`. -/
structure PState where
  dag_status : Option DagStatus
  node_statuses : List NodeStatus
  status_end : Option StatusEnd
  contents : Contents
  store_contents : Bool
deriving DecidableEq

def initState : PState := ⟨none, [], none, [], false⟩

/-- Construction of a `DagStatus` from the accumulated block contents, with
the dict lookups in the evaluation order of the Python call. -/
def buildDag (contents : Contents) : Except PyError DagStatus := do
  let timestamp ← lookupC contents (pys "Timestamp")
  let dagst ← lookupC contents (pys "DagStatus")
  let nodes_total ← lookupC contents (pys "NodesTotal")
  let nodes_done ← lookupC contents (pys "NodesDone")
  let nodes_pre ← lookupC contents (pys "NodesPre")
  let nodes_queued ← lookupC contents (pys "NodesQueued")
  let nodes_post ← lookupC contents (pys "NodesPost")
  let nodes_ready ← lookupC contents (pys "NodesReady")
  let nodes_unready ← lookupC contents (pys "NodesUnready")
  let nodes_failed ← lookupC contents (pys "NodesFailed")
  let job_procs_held ← lookupC contents (pys "JobProcsHeld")
  let job_procs_idle ← lookupC contents (pys "JobProcsIdle")
  mkDagStatus timestamp.comment dagst.comment nodes_total.value
    nodes_done.value nodes_pre.value nodes_queued.value nodes_post.value
    nodes_ready.value nodes_unready.value nodes_failed.value
    job_procs_held.value job_procs_idle.value

/-- Construction of a `NodeStatus` from the accumulated block contents. -/
def buildNode (contents : Contents) : Except PyError NodeStatus := do
  let node ← lookupC contents (pys "Node")
  let node_status ← lookupC contents (pys "NodeStatus")
  let status_details ← lookupC contents (pys "StatusDetails")
  let retry_count ← lookupC contents (pys "RetryCount")
  let job_procs_queued ← lookupC contents (pys "JobProcsQueued")
  let job_procs_held ← lookupC contents (pys "JobProcsHeld")
  mkNodeStatus node.value node_status.comment status_details.value
    retry_count.value job_procs_queued.value job_procs_held.value

/-- Construction of a `StatusEnd` from the accumulated block contents. -/
def buildEnd (contents : Contents) : Except PyError StatusEnd := do
  let end_time ← lookupC contents (pys "EndTime")
  let next_update ← lookupC contents (pys "NextUpdate")
  .ok (mkStatusEnd end_time.comment next_update.comment)

/-- The block-close dispatch of `process` (the body of the
`line.startswith("]")` branch): dispatch on `contents['Type'].value`, raising
`KeyError("Unknown block Type")` for any other type. -/
def closeBlock (st : PState) : Except PyError PState := do
  let ty ← lookupC st.contents (pys "Type")
  if ty.value = pys "DagStatus" then do
    let d ← buildDag st.contents
    .ok { st with dag_status := some d, contents := [], store_contents := false }
  else if ty.value = pys "NodeStatus" then do
    let n ← buildNode st.contents
    .ok { st with node_statuses := st.node_statuses ++ [n], contents := [],
                  store_contents := false }
  else if ty.value = pys "StatusEnd" then do
    let e ← buildEnd st.contents
    .ok { st with status_end := some e, contents := [], store_contents := false }
  else .error (.keyError (pys "Unknown block Type"))

/-- One iteration of the `for line in sfile` loop of `process`. -/
def processLine (st : PState) (line : PyStr) : Except PyError PState :=
  if pyStartswith (pys "[") line || pyContains '}' line then
    .ok { st with store_contents := true }
  else if pyStartswith (pys "]") line then
    closeBlock st
  else if pyContains '{' line then
    .ok { st with store_contents := false }
  else if st.store_contents then do
    let l ← interpret_line line
    .ok { st with contents := (l.key, l) :: st.contents }
  else .ok st

/-- What `process` hands to `print_table` on success. -/
structure ProcResult where
  dag_status : DagStatus
  node_statuses : List NodeStatus
  status_end : Option StatusEnd
deriving DecidableEq

/-- `process` from DAGstatus.py, on the list of lines of the status file.
After the loop, `dag_status.node_statuses = node_statuses` raises an
`AttributeError` when no `DagStatus` block was seen (`dag_status is None`);
otherwise the records are handed to the renderer. -/
def process (lines : List PyStr) : Except PyError ProcResult :=
  match lines.foldlM processLine initState with
  | .error e => .error e
  | .ok st =>
    match st.dag_status with
    | none => .error .attributeError
    | some d =>
      .ok ⟨{ d with node_statuses := st.node_statuses }, st.node_statuses,
           st.status_end⟩

/-- One iteration of the `for f in args.statusFile` loop of `__main__`:
an exception raised by `process` propagates and aborts the loop. -/
def mainStep (acc : List ProcResult) (f : List PyStr) :
    Except PyError (List ProcResult) :=
  match process f with
  | .error e => .error e
  | .ok r => .ok (acc ++ [r])

/-- The `__main__` loop over the status files given on the command line. -/
def mainLoop (files : List (List PyStr)) : Except PyError (List ProcResult) :=
  files.foldlM mainStep []

def exceptIsOk {α : Type} : Except PyError α → Bool
  | .ok _ => true
  | .error _ => false

/-- Spec-side tokenizer for claim C2 only, modelled from the spec's words:
split on the FIRST `=` into `key` (left, trimmed) and `rest` (the ENTIRE
remainder right of the first `=`); the `;`-handling of the remainder follows
the source.  To be compared with `interpret_line`. -/
def beforeFirst (p : Char) : PyStr → PyStr
  | [] => []
  | x :: t => if x = p then [] else x :: beforeFirst p t

def afterFirst (p : Char) : PyStr → Option PyStr
  | [] => none
  | x :: t => if x = p then some t else afterFirst p t

def interpret_line_firstSplit (line : PyStr) : Except PyError Line :=
  let raw := pytrim (replace1 '\n' line)
  match afterFirst '=' raw with
  | none => .error .indexError
  | some rest =>
    let key := pytrim (beforeFirst '=' raw)
    let other := (splitChar ';' rest).map pytrim
    match other with
    | [] => .error .indexError
    | [v] => .ok ⟨key, strip_doublequotes v, []⟩
    | [v, c] => .ok ⟨key, strip_doublequotes v, strip_doublequotes (strip_comments c)⟩
    | v :: _ :: _ :: _ => .ok ⟨key, strip_doublequotes v, []⟩

/-- True when the accumulated contents would make the block-close dispatch
fail: the `Type` key is missing or its value is none of the three known
block types. -/
def badTypeB (contents : Contents) : Bool :=
  match lookupC contents (pys "Type") with
  | .error _ => true
  | .ok l =>
    !(l.value == pys "DagStatus") && !(l.value == pys "NodeStatus") &&
      !(l.value == pys "StatusEnd")

/-- Example status file: one `DagStatus` block (NodesTotal=10, NodesDone=3)
and two `NodeStatus` blocks, one `STATUS_SUBMITTED`/`not_idle`, one
`STATUS_DONE`. -/
def exDone : List PyStr := [
  pys "[",
  pys "Type = \"DagStatus\";",
  pys "Timestamp = 1438169707; /* \"Wed Jul 29 12:35:07 2015\" */",
  pys "DagStatus = 5; /* \"STATUS_SUBMITTED ()\" */",
  pys "NodesTotal = 10;",
  pys "NodesDone = 3;",
  pys "NodesPre = 0;",
  pys "NodesQueued = 2;",
  pys "NodesPost = 0;",
  pys "NodesReady = 0;",
  pys "NodesUnready = 0;",
  pys "NodesFailed = 0;",
  pys "JobProcsHeld = 0;",
  pys "JobProcsIdle = 1;",
  pys "]",
  pys "[",
  pys "Type = \"NodeStatus\";",
  pys "Node = \"jobA\";",
  pys "NodeStatus = 5; /* \"STATUS_SUBMITTED\" */",
  pys "StatusDetails = \"not_idle\";",
  pys "RetryCount = 0;",
  pys "JobProcsQueued = 1;",
  pys "JobProcsHeld = 0;",
  pys "]",
  pys "[",
  pys "Type = \"NodeStatus\";",
  pys "Node = \"jobB\";",
  pys "NodeStatus = 6; /* \"STATUS_DONE\" */",
  pys "StatusDetails = \"\";",
  pys "RetryCount = 0;",
  pys "JobProcsQueued = 0;",
  pys "JobProcsHeld = 0;",
  pys "]"]

/-- Example status file in which a `NodeStatus` block (`jobA`) closes before
the `DagStatus` block, a `StatusEnd` block closes between the two, and
another `NodeStatus` block (`jobB`) closes after it. -/
def exMixed : List PyStr := [
  pys "[",
  pys "Type = \"NodeStatus\";",
  pys "Node = \"jobA\";",
  pys "NodeStatus = 5; /* \"STATUS_SUBMITTED\" */",
  pys "StatusDetails = \"not_idle\";",
  pys "RetryCount = 0;",
  pys "JobProcsQueued = 1;",
  pys "JobProcsHeld = 0;",
  pys "]",
  pys "[",
  pys "Type = \"DagStatus\";",
  pys "Timestamp = 1438169707; /* \"Wed Jul 29 12:35:07 2015\" */",
  pys "DagStatus = 5; /* \"STATUS_SUBMITTED ()\" */",
  pys "NodesTotal = 10;",
  pys "NodesDone = 3;",
  pys "NodesPre = 0;",
  pys "NodesQueued = 2;",
  pys "NodesPost = 0;",
  pys "NodesReady = 0;",
  pys "NodesUnready = 0;",
  pys "NodesFailed = 0;",
  pys "JobProcsHeld = 0;",
  pys "JobProcsIdle = 1;",
  pys "]",
  pys "[",
  pys "Type = \"StatusEnd\";",
  pys "EndTime = 1438169707; /* \"Wed Jul 29 12:35:07 2015\" */",
  pys "NextUpdate = 1438169767; /* \"Wed Jul 29 12:36:07 2015\" */",
  pys "]",
  pys "[",
  pys "Type = \"NodeStatus\";",
  pys "Node = \"jobB\";",
  pys "NodeStatus = 6; /* \"STATUS_DONE\" */",
  pys "StatusDetails = \"\";",
  pys "RetryCount = 0;",
  pys "JobProcsQueued = 0;",
  pys "JobProcsHeld = 0;",
  pys "]"]

/-- Example status file whose single `DagStatus` block has `NodesTotal = 0`. -/
def exZero : List PyStr := [
  pys "[",
  pys "Type = \"DagStatus\";",
  pys "Timestamp = 1438169707; /* \"Wed Jul 29 12:35:07 2015\" */",
  pys "DagStatus = 5; /* \"STATUS_SUBMITTED ()\" */",
  pys "NodesTotal = 0;",
  pys "NodesDone = 0;",
  pys "NodesPre = 0;",
  pys "NodesQueued = 0;",
  pys "NodesPost = 0;",
  pys "NodesReady = 0;",
  pys "NodesUnready = 0;",
  pys "NodesFailed = 0;",
  pys "JobProcsHeld = 0;",
  pys "JobProcsIdle = 0;",
  pys "]"]

/-- Example status file whose single block lacks a `Type` key. -/
def exNoType : List PyStr := [pys "[", pys "x = 1;", pys "]"]

/-! ### Generic lemmas about the embedded Python string operations -/

theorem bindE_ok {α β : Type} (a : α) (f : α → Except PyError β) :
    (Except.ok a >>= f) = f a := rfl

theorem bindE_err {α β : Type} (e : PyError) (f : α → Except PyError β) :
    ((Except.error e : Except PyError α) >>= f) = .error e := rfl

theorem exceptBind_eq_ok {α β : Type} {x : Except PyError α}
    {f : α → Except PyError β} {b : β} (h : (x >>= f) = .ok b) :
    ∃ a, x = .ok a ∧ f a = .ok b := by
  cases x with
  | ok a => exact ⟨a, rfl, h⟩
  | error e => rw [bindE_err] at h; cases h

theorem foldlME_append {α β : Type} (g : β → α → Except PyError β)
    (l1 l2 : List α) (b : β) :
    (l1 ++ l2).foldlM g b = (l1.foldlM g b) >>= (fun x => l2.foldlM g x) := by
  induction l1 generalizing b with
  | nil =>
    show l2.foldlM g b = (Except.ok b) >>= (fun x => l2.foldlM g x)
    rw [bindE_ok]
  | cons a t ih =>
    rw [List.cons_append, List.foldlM_cons, List.foldlM_cons]
    cases hg : g b a with
    | error e => simp only [hg, bindE_err]
    | ok b2 => simp only [hg, bindE_ok]; exact ih b2

theorem ltrim_nil : ltrim [] = [] := rfl

theorem ltrim_cons_space {x : Char} (h : isPySpace x = true) (xs : PyStr) :
    ltrim (x :: xs) = ltrim xs := by simp [ltrim, h]

theorem ltrim_cons_nonspace {x : Char} (h : isPySpace x = false) (xs : PyStr) :
    ltrim (x :: xs) = x :: xs := by simp [ltrim, h]

theorem ltrim_length_le (xs : PyStr) : (ltrim xs).length ≤ xs.length := by
  induction xs with
  | nil => simp [ltrim]
  | cons x t ih =>
    by_cases h : isPySpace x = true
    · rw [ltrim_cons_space h]
      exact le_trans ih (by simp)
    · rw [ltrim_cons_nonspace (by simpa using h)]

theorem ltrim_eq_self_of_length (xs : PyStr)
    (h : (ltrim xs).length = xs.length) : ltrim xs = xs := by
  induction xs with
  | nil => rfl
  | cons x t ih =>
    by_cases hx : isPySpace x = true
    · rw [ltrim_cons_space hx] at h ⊢
      have := ltrim_length_le t
      simp at h
      omega
    · rw [ltrim_cons_nonspace (by simpa using hx)]

theorem ltrim_idem (xs : PyStr) : ltrim (ltrim xs) = ltrim xs := by
  induction xs with
  | nil => rfl
  | cons x t ih =>
    by_cases hx : isPySpace x = true
    · rw [ltrim_cons_space hx, ih]
    · rw [ltrim_cons_nonspace (by simpa using hx),
          ltrim_cons_nonspace (by simpa using hx)]

theorem ltrim_append (xs ys : PyStr) :
    ltrim (xs ++ ys) = if ltrim xs = [] then ltrim ys else ltrim xs ++ ys := by
  induction xs with
  | nil => simp [ltrim_nil]
  | cons x t ih =>
    by_cases hx : isPySpace x = true
    · rw [List.cons_append, ltrim_cons_space hx, ltrim_cons_space hx, ih]
    · have h2 : isPySpace x = false := by simpa using hx
      rw [List.cons_append, ltrim_cons_nonspace h2, ltrim_cons_nonspace h2]
      simp

theorem mem_of_mem_ltrim {c : Char} : ∀ {xs : PyStr}, c ∈ ltrim xs → c ∈ xs
  | [], h => h
  | x :: t, h => by
    by_cases hx : isPySpace x = true
    · rw [ltrim_cons_space hx] at h
      exact List.mem_cons_of_mem _ (mem_of_mem_ltrim h)
    · rwa [ltrim_cons_nonspace (by simpa using hx)] at h

theorem rtrim_append (xs ys : PyStr) :
    rtrim (xs ++ ys) = if rtrim ys = [] then rtrim xs else xs ++ rtrim ys := by
  unfold rtrim
  rw [List.reverse_append, ltrim_append]
  by_cases h : ltrim ys.reverse = []
  · simp [h]
  · have h2 : ¬((ltrim ys.reverse).reverse = []) := by simpa using h
    simp [h, h2]

theorem rtrim_nil : rtrim [] = [] := rfl

theorem rtrim_length_le (xs : PyStr) : (rtrim xs).length ≤ xs.length := by
  unfold rtrim
  calc (ltrim xs.reverse).reverse.length = (ltrim xs.reverse).length := by simp
  _ ≤ xs.reverse.length := ltrim_length_le _
  _ = xs.length := by simp

theorem rtrim_idem (xs : PyStr) : rtrim (rtrim xs) = rtrim xs := by
  unfold rtrim
  rw [List.reverse_reverse, ltrim_idem]

theorem mem_of_mem_rtrim {c : Char} {xs : PyStr} (h : c ∈ rtrim xs) : c ∈ xs := by
  unfold rtrim at h
  rw [List.mem_reverse] at h
  have := mem_of_mem_ltrim h
  rwa [List.mem_reverse] at this

theorem rtrim_cons_nonspace {x : Char} (h : isPySpace x = false) (xs : PyStr) :
    rtrim (x :: xs) = x :: rtrim xs := by
  have h1 : rtrim ([x] ++ xs) = if rtrim xs = [] then rtrim [x] else [x] ++ rtrim xs :=
    rtrim_append [x] xs
  have h2 : rtrim [x] = [x] := by
    unfold rtrim
    simp [ltrim_cons_nonspace h]
  by_cases h0 : rtrim xs = []
  · rw [List.singleton_append] at h1
    rw [h1, if_pos h0, h2, h0]
  · rw [List.singleton_append] at h1
    rw [h1, if_neg h0, List.singleton_append]

theorem pytrim_nil : pytrim [] = [] := rfl

theorem pytrim_cons_space {x : Char} (h : isPySpace x = true) (xs : PyStr) :
    pytrim (x :: xs) = pytrim xs := by
  unfold pytrim
  rw [ltrim_cons_space h]

theorem pytrim_ltrim (xs : PyStr) : pytrim (ltrim xs) = pytrim xs := by
  unfold pytrim
  rw [ltrim_idem]

theorem mem_of_mem_pytrim {c : Char} {xs : PyStr} (h : c ∈ pytrim xs) : c ∈ xs := by
  unfold pytrim at h
  exact mem_of_mem_ltrim (mem_of_mem_rtrim h)

theorem ltrim_eq_self_of_pytrim {v : PyStr} (h : pytrim v = v) : ltrim v = v := by
  have h1 : (ltrim v).length ≤ v.length := ltrim_length_le v
  have h2 : v.length ≤ (ltrim v).length := by
    calc v.length = (pytrim v).length := by rw [h]
    _ = (rtrim (ltrim v)).length := rfl
    _ ≤ (ltrim v).length := rtrim_length_le _
  exact ltrim_eq_self_of_length v (le_antisymm h1 h2)

theorem rtrim_eq_self_of_pytrim {v : PyStr} (h : pytrim v = v) : rtrim v = v := by
  have h1 := ltrim_eq_self_of_pytrim h
  unfold pytrim at h
  rwa [h1] at h

theorem ltrim_eq_nil_iff {v : PyStr} (h : ltrim v = v) : (ltrim v = []) ↔ (v = []) := by
  rw [h]

theorem pytrim_append_space {x : Char} (h : isPySpace x = true) (xs : PyStr) :
    pytrim (xs ++ [x]) = pytrim xs := by
  unfold pytrim
  rw [ltrim_append]
  by_cases h0 : ltrim xs = []
  · rw [if_pos h0, ltrim_cons_space h, ltrim_nil, h0]
  · rw [if_neg h0, rtrim_append]
    have hx : rtrim [x] = [] := by
      unfold rtrim
      simp [ltrim_cons_space h, ltrim_nil]
    rw [if_pos hx]

theorem rtrim_append_keep {ys : PyStr} (h : rtrim ys = ys) (h2 : ys ≠ [])
    (xs : PyStr) : rtrim (xs ++ ys) = xs ++ ys := by
  rw [rtrim_append, h, if_neg h2]

theorem splitChar_nil (p : Char) : splitChar p [] = [[]] := rfl

theorem splitChar_cons_sep (p : Char) (xs : PyStr) :
    splitChar p (p :: xs) = [] :: splitChar p xs := by
  simp [splitChar]

theorem splitChar_ne_nil (p : Char) : ∀ xs : PyStr, splitChar p xs ≠ []
  | [] => by simp [splitChar]
  | x :: rest => by
    simp only [splitChar]
    by_cases h : x = p
    · simp [h]
    · simp only [h, if_false]
      cases hr : splitChar p rest with
      | nil => simp
      | cons a t => simp

theorem splitChar_cons_ne {p x : Char} (h : x ≠ p) (xs : PyStr) :
    splitChar p (x :: xs) =
      match splitChar p xs with
      | [] => [[x]]
      | h2 :: t => (x :: h2) :: t := by
  simp [splitChar, h]

theorem splitChar_of_not_mem {p : Char} : ∀ {xs : PyStr}, p ∉ xs → splitChar p xs = [xs]
  | [], _ => rfl
  | x :: t, h => by
    have hx : x ≠ p := fun he => h (by simp [he])
    have ht : p ∉ t := fun hm => h (List.mem_cons_of_mem _ hm)
    rw [splitChar_cons_ne hx, splitChar_of_not_mem ht]

theorem splitChar_append_cons {p : Char} {xs : PyStr} (h : p ∉ xs) (ys : PyStr) :
    splitChar p (xs ++ p :: ys) = xs :: splitChar p ys := by
  induction xs with
  | nil => simp [splitChar_cons_sep]
  | cons x t ih =>
    have hx : x ≠ p := fun he => h (by simp [he])
    have ht : p ∉ t := fun hm => h (List.mem_cons_of_mem _ hm)
    rw [List.cons_append, splitChar_cons_ne hx, ih ht]

theorem replace1_nil (p : Char) : replace1 p [] = [] := rfl

theorem replace1_cons_eq (p : Char) (xs : PyStr) :
    replace1 p (p :: xs) = replace1 p xs := by simp [replace1]

theorem replace1_cons_ne {p x : Char} (h : x ≠ p) (xs : PyStr) :
    replace1 p (x :: xs) = x :: replace1 p xs := by simp [replace1, h]

theorem replace1_of_not_mem {p : Char} : ∀ {xs : PyStr}, p ∉ xs → replace1 p xs = xs
  | [], _ => rfl
  | x :: t, h => by
    have hx : x ≠ p := fun he => h (by simp [he])
    have ht : p ∉ t := fun hm => h (List.mem_cons_of_mem _ hm)
    rw [replace1_cons_ne hx, replace1_of_not_mem ht]

theorem replace1_append (p : Char) (xs ys : PyStr) :
    replace1 p (xs ++ ys) = replace1 p xs ++ replace1 p ys := by
  induction xs with
  | nil => simp [replace1_nil]
  | cons x t ih =>
    by_cases hx : x = p
    · subst hx
      rw [List.cons_append, replace1_cons_eq, replace1_cons_eq, ih]
    · rw [List.cons_append, replace1_cons_ne hx, replace1_cons_ne hx,
          List.cons_append, ih]

theorem mem_of_mem_replace1 {c p : Char} : ∀ {xs : PyStr}, c ∈ replace1 p xs → c ∈ xs
  | [], h => h
  | x :: t, h => by
    by_cases hx : x = p
    · subst hx
      rw [replace1_cons_eq] at h
      exact List.mem_cons_of_mem _ (mem_of_mem_replace1 h)
    · rw [replace1_cons_ne hx] at h
      rcases List.mem_cons.mp h with h1 | h2
      · exact h1 ▸ List.mem_cons_self _ _
      · exact List.mem_cons_of_mem _ (mem_of_mem_replace1 h2)

theorem replace2_nil (p1 p2 : Char) : replace2 p1 p2 [] = [] := rfl

theorem replace2_single (p1 p2 x : Char) : replace2 p1 p2 [x] = [x] := rfl

theorem replace2_cons2 (p1 p2 x y : Char) (t : PyStr) :
    replace2 p1 p2 (x :: y :: t) =
      if x = p1 ∧ y = p2 then replace2 p1 p2 t
      else x :: replace2 p1 p2 (y :: t) := rfl

theorem replace2_cons_ne {p1 x : Char} (h : x ≠ p1) (p2 : Char) :
    ∀ xs : PyStr, replace2 p1 p2 (x :: xs) = x :: replace2 p1 p2 xs
  | [] => rfl
  | y :: t => by
    rw [replace2_cons2]
    simp [h]

theorem replace2_append (p1 p2 : Char) (ys : PyStr) :
    ∀ xs : PyStr, ¬(xs.getLast? = some p1 ∧ ys.head? = some p2) →
      replace2 p1 p2 (xs ++ ys) = replace2 p1 p2 xs ++ replace2 p1 p2 ys
  | [], _ => by simp [replace2_nil]
  | [x], h => by
    cases ys with
    | nil => simp [replace2_single, replace2_nil]
    | cons b t =>
      by_cases hm : x = p1 ∧ b = p2
      · exact absurd ⟨by simp [hm.1], by simp [hm.2]⟩ h
      · rw [List.singleton_append, replace2_cons2, if_neg hm, replace2_single,
            List.singleton_append]
  | x :: y :: t, h => by
    have hlast : ¬((y :: t).getLast? = some p1 ∧ ys.head? = some p2) := by
      intro hc
      exact h ⟨List.getLast?_cons_cons.trans hc.1, hc.2⟩
    by_cases hm : x = p1 ∧ y = p2
    · rw [List.cons_append, List.cons_append, replace2_cons2, if_pos hm,
          replace2_cons2, if_pos hm]
      apply replace2_append p1 p2 ys t
      intro hc
      cases t with
      | nil => simp at hc
      | cons a s =>
        apply h
        rw [List.getLast?_cons_cons, List.getLast?_cons_cons]
        exact hc
    · rw [List.cons_append, List.cons_append, replace2_cons2, if_neg hm]
      have h2 : replace2 p1 p2 (y :: (t ++ ys)) =
          replace2 p1 p2 (y :: t) ++ replace2 p1 p2 ys := by
        rw [show y :: (t ++ ys) = (y :: t) ++ ys from rfl]
        exact replace2_append p1 p2 ys (y :: t) hlast
      rw [h2, replace2_cons2, if_neg hm, List.cons_append]

theorem strip_comments_wrap (c : PyStr) :
    strip_comments ('/' :: '*' :: ' ' :: (c ++ [' ', '*', '/'])) =
      strip_comments c := by
  unfold strip_comments
  have h1 : replace2 '/' '*' ('/' :: '*' :: ' ' :: (c ++ [' ', '*', '/'])) =
      ' ' :: (replace2 '/' '*' c ++ [' ', '*', '/']) := by
    rw [replace2_cons2, if_pos ⟨rfl, rfl⟩, replace2_cons_ne (by decide),
        replace2_append '/' '*' [' ', '*', '/'] c
          (fun hc => absurd hc.2 (by decide)),
        show replace2 '/' '*' [' ', '*', '/'] = [' ', '*', '/'] from by decide]
  rw [h1]
  have h2 : replace2 '*' '/' (' ' :: (replace2 '/' '*' c ++ [' ', '*', '/'])) =
      ' ' :: (replace2 '*' '/' (replace2 '/' '*' c) ++ [' ']) := by
    rw [replace2_cons_ne (by decide),
        replace2_append '*' '/' [' ', '*', '/'] _
          (fun hc => absurd hc.2 (by decide)),
        show replace2 '*' '/' [' ', '*', '/'] = [' '] from by decide]
  rw [h2, pytrim_cons_space (by decide), pytrim_append_space (by decide)]

theorem ltrim_eq_nil_iff_all (xs : PyStr) :
    ltrim xs = [] ↔ ∀ y ∈ xs, isPySpace y = true := by
  induction xs with
  | nil => simp [ltrim_nil]
  | cons x t ih =>
    by_cases hx : isPySpace x = true
    · rw [ltrim_cons_space hx, ih]
      simp [hx]
    · rw [ltrim_cons_nonspace (by simpa using hx)]
      simp only [List.mem_cons]
      constructor
      · intro hc; cases hc
      · intro hall
        exact absurd (hall x (Or.inl rfl)) hx

theorem rtrim_eq_nil_imp_ltrim {xs : PyStr} (h : rtrim xs = []) : ltrim xs = [] := by
  unfold rtrim at h
  have h2 : ltrim xs.reverse = [] := by simpa using h
  rw [ltrim_eq_nil_iff_all] at h2 ⊢
  intro y hy
  exact h2 y (by simpa using hy)

theorem pytrim_rtrim (xs : PyStr) : pytrim (rtrim xs) = pytrim xs := by
  induction xs with
  | nil => rfl
  | cons x t ih =>
    by_cases hx : isPySpace x = true
    · have hr : rtrim (x :: t) = if rtrim t = [] then rtrim [x] else x :: rtrim t := by
        have := rtrim_append [x] t
        rwa [List.singleton_append] at this
      by_cases h0 : rtrim t = []
      · rw [hr, if_pos h0]
        have hx0 : rtrim [x] = [] := by
          unfold rtrim
          simp [ltrim_cons_space hx, ltrim_nil]
        rw [hx0, pytrim_nil, pytrim_cons_space hx]
        unfold pytrim
        rw [rtrim_eq_nil_imp_ltrim h0, rtrim_nil]
      · rw [hr, if_neg h0, pytrim_cons_space hx, pytrim_cons_space hx, ih]
    · have hx2 : isPySpace x = false := by simpa using hx
      rw [rtrim_cons_nonspace hx2]
      unfold pytrim
      rw [ltrim_cons_nonspace hx2, ltrim_cons_nonspace hx2,
          rtrim_cons_nonspace hx2, rtrim_cons_nonspace hx2, rtrim_idem]

theorem rtrim_eq_self_of_getLast {xs : PyStr} {x : Char}
    (hx : xs.getLast? = some x) (hs : isPySpace x = false) : rtrim xs = xs := by
  unfold rtrim
  have hh : xs.reverse.head? = some x := by
    rw [List.head?_reverse]
    exact hx
  cases hrev : xs.reverse with
  | nil => rw [hrev] at hh; cases hh
  | cons a t =>
    rw [hrev] at hh
    have ha : a = x := by
      simp only [List.head?_cons, Option.some.injEq] at hh
      exact hh
    rw [ltrim_cons_nonspace (ha ▸ hs), ← hrev, List.reverse_reverse]

theorem ltrim_append_nonspace {x : Char} (h : isPySpace x = false) (a X : PyStr) :
    ltrim (a ++ x :: X) = ltrim a ++ x :: X := by
  rw [ltrim_append]
  by_cases h0 : ltrim a = []
  · rw [if_pos h0, h0, ltrim_cons_nonspace h, List.nil_append]
  · rw [if_neg h0]

theorem ltrim_key (k : PyStr) (R : PyStr) :
    ltrim (k ++ (' ' :: '=' :: R)) = ltrim (k ++ [' ']) ++ ('=' :: R) := by
  rw [ltrim_append, ltrim_append]
  by_cases h : ltrim k = []
  · rw [if_pos h, if_pos h, ltrim_cons_space (by decide),
        ltrim_cons_nonspace (by decide), ltrim_cons_space (by decide), ltrim_nil,
        List.nil_append]
  · rw [if_neg h, if_neg h, List.append_assoc, List.singleton_append]

theorem pytrim_line_key (k T : PyStr) :
    pytrim (k ++ (' ' :: '=' :: T)) = ltrim (k ++ [' ']) ++ '=' :: rtrim T := by
  unfold pytrim
  rw [ltrim_key, rtrim_append, rtrim_cons_nonspace (by decide)]
  simp

theorem pytrim_line_eq (a T : PyStr) :
    pytrim (a ++ ('=' :: T)) = ltrim a ++ '=' :: rtrim T := by
  unfold pytrim
  rw [ltrim_append_nonspace (by decide), rtrim_append,
      rtrim_cons_nonspace (by decide)]
  simp

theorem pytrim_value {v : PyStr} (hv : pytrim v = v) (X : PyStr) :
    pytrim (v ++ ';' :: X) = v ++ ';' :: rtrim X := by
  unfold pytrim
  rw [ltrim_append_nonspace (by decide), ltrim_eq_self_of_pytrim hv,
      rtrim_append, rtrim_cons_nonspace (by decide)]
  simp

theorem parts_two {p : Char} {A B : PyStr} (hA : p ∉ A) (hB : p ∉ B) :
    (splitChar p (A ++ p :: B)).map pytrim = [pytrim A, pytrim B] := by
  rw [splitChar_append_cons hA, splitChar_of_not_mem hB]
  rfl

theorem interpret_line_parts {line : PyStr} {p0 p1 : PyStr} {rest : List PyStr}
    (h : (splitChar '=' (pytrim (replace1 '\n' line))).map pytrim = p0 :: p1 :: rest) :
    interpret_line line = lineOther p0 ((splitChar ';' p1).map pytrim) := by
  have h0 : interpret_line line =
      match (splitChar '=' (pytrim (replace1 '\n' line))).map pytrim with
      | p0 :: p1 :: _ => lineOther p0 ((splitChar ';' p1).map pytrim)
      | _ => .error .indexError := rfl
  rw [h0, h]

theorem interpret_line_one {line : PyStr} {x : PyStr}
    (h : (splitChar '=' (pytrim (replace1 '\n' line))).map pytrim = [x]) :
    interpret_line line = .error .indexError := by
  have h0 : interpret_line line =
      match (splitChar '=' (pytrim (replace1 '\n' line))).map pytrim with
      | p0 :: p1 :: _ => lineOther p0 ((splitChar ';' p1).map pytrim)
      | _ => .error .indexError := rfl
  rw [h0, h]

theorem not_mem_cons2 {c x : Char} {xs : PyStr} (h1 : c ≠ x) (h2 : c ∉ xs) :
    c ∉ x :: xs := by
  simp [List.mem_cons, h1, h2]

theorem not_mem_append2 {c : Char} {xs ys : PyStr} (h1 : c ∉ xs) (h2 : c ∉ ys) :
    c ∉ xs ++ ys := by
  simp [List.mem_append, h1, h2]

theorem pyGetLast_append (l2 : PyStr) (h : l2 ≠ []) (l1 : PyStr) :
    (l1 ++ l2).getLast? = l2.getLast? := by
  rw [← List.head?_reverse, ← List.head?_reverse, List.reverse_append]
  cases hrev : l2.reverse with
  | nil => exact absurd (by simpa using hrev) h
  | cons a s => simp

theorem tokenizer_comment_line (k v c : PyStr)
    (hk1 : '\n' ∉ k) (hk2 : '=' ∉ k)
    (hv1 : '\n' ∉ v) (hv2 : '=' ∉ v) (hv3 : ';' ∉ v) (hv4 : pytrim v = v)
    (hc1 : '\n' ∉ c) (hc2 : '=' ∉ c) (hc3 : ';' ∉ c) :
    interpret_line (k ++ pys " = " ++ v ++ pys "; /* " ++ c ++ pys " */") =
      .ok ⟨pytrim k, strip_doublequotes v, strip_doublequotes (strip_comments c)⟩ := by
  rw [show pys " = " = ([' ', '=', ' '] : PyStr) from rfl,
      show pys "; /* " = ([';', ' ', '/', '*', ' '] : PyStr) from rfl,
      show pys " */" = ([' ', '*', '/'] : PyStr) from rfl]
  simp only [List.append_assoc, List.cons_append, List.nil_append]
  have hnm : ('\n' : Char) ∉
      (k ++ ' ' :: '=' :: ' ' :: (v ++ ';' :: ' ' :: '/' :: '*' :: ' ' ::
        (c ++ ' ' :: '*' :: '/' :: []))) :=
    not_mem_append2 hk1 (not_mem_cons2 (by decide) (not_mem_cons2 (by decide)
      (not_mem_cons2 (by decide) (not_mem_append2 hv1 (not_mem_cons2 (by decide)
      (not_mem_cons2 (by decide) (not_mem_cons2 (by decide) (not_mem_cons2 (by decide)
      (not_mem_cons2 (by decide) (not_mem_append2 hc1 (by decide)))))))))))
  have hT : ('=' : Char) ∉
      (' ' :: (v ++ ';' :: ' ' :: '/' :: '*' :: ' ' ::
        (c ++ ' ' :: '*' :: '/' :: []))) :=
    not_mem_cons2 (by decide) (not_mem_append2 hv2 (not_mem_cons2 (by decide)
      (not_mem_cons2 (by decide) (not_mem_cons2 (by decide) (not_mem_cons2 (by decide)
      (not_mem_cons2 (by decide) (not_mem_append2 hc2 (by decide))))))))
  have hA : ('=' : Char) ∉ ltrim (k ++ [' ']) := fun hm =>
    (not_mem_append2 hk2 (by decide)) (mem_of_mem_ltrim hm)
  have hc3ne : (c ++ ([' ', '*', '/'] : PyStr)) ≠ [] := by
    simp
  have hXlast : (' ' :: '/' :: '*' :: ' ' :: (c ++ ' ' :: '*' :: '/' :: []) :
      PyStr).getLast? = some '/' := by
    rw [show (' ' :: '/' :: '*' :: ' ' :: (c ++ ' ' :: '*' :: '/' :: []) : PyStr) =
        ([' ', '/', '*', ' '] : PyStr) ++ (c ++ ([' ', '*', '/'] : PyStr)) from rfl,
      pyGetLast_append _ hc3ne, pyGetLast_append ([' ', '*', '/'] : PyStr) (by decide)]
    rfl
  have hparts : (splitChar '=' (pytrim (replace1 '\n'
        (k ++ ' ' :: '=' :: ' ' :: (v ++ ';' :: ' ' :: '/' :: '*' :: ' ' ::
          (c ++ ' ' :: '*' :: '/' :: [])))))).map pytrim =
      [pytrim k, v ++ ';' :: ' ' :: '/' :: '*' :: ' ' ::
        (c ++ ' ' :: '*' :: '/' :: [])] := by
    rw [replace1_of_not_mem hnm, pytrim_line_key,
        parts_two hA (fun hm => hT (mem_of_mem_rtrim hm)),
        pytrim_ltrim, pytrim_append_space (by decide), pytrim_rtrim,
        pytrim_cons_space (by decide), pytrim_value hv4,
        rtrim_eq_self_of_getLast hXlast (by decide)]
  rw [interpret_line_parts hparts]
  have hXsemi : (';' : Char) ∉ (' ' :: '/' :: '*' :: ' ' ::
      (c ++ ' ' :: '*' :: '/' :: []) : PyStr) :=
    not_mem_cons2 (by decide) (not_mem_cons2 (by decide) (not_mem_cons2 (by decide)
      (not_mem_cons2 (by decide) (not_mem_append2 hc3 (by decide)))))
  have h2last : ('/' :: '*' :: ' ' :: (c ++ ' ' :: '*' :: '/' :: []) :
      PyStr).getLast? = some '/' := by
    rw [show ('/' :: '*' :: ' ' :: (c ++ ' ' :: '*' :: '/' :: []) : PyStr) =
        (['/', '*', ' '] : PyStr) ++ (c ++ ([' ', '*', '/'] : PyStr)) from rfl,
      pyGetLast_append _ hc3ne, pyGetLast_append ([' ', '*', '/'] : PyStr) (by decide)]
    rfl
  have hsplit : (splitChar ';' (v ++ ';' :: ' ' :: '/' :: '*' :: ' ' ::
      (c ++ ' ' :: '*' :: '/' :: []))).map pytrim =
      [v, '/' :: '*' :: ' ' :: (c ++ ' ' :: '*' :: '/' :: [])] := by
    rw [parts_two hv3 hXsemi, hv4, pytrim_cons_space (by decide)]
    unfold pytrim
    rw [ltrim_cons_nonspace (by decide), rtrim_eq_self_of_getLast h2last (by decide)]
  rw [hsplit]
  rw [show lineOther (pytrim k) [v, '/' :: '*' :: ' ' :: (c ++ ' ' :: '*' :: '/' :: [])] =
      .ok ⟨pytrim k, strip_doublequotes v,
        strip_doublequotes (strip_comments ('/' :: '*' :: ' ' ::
          (c ++ ' ' :: '*' :: '/' :: [])))⟩ from rfl]
  rw [show ('/' :: '*' :: ' ' :: (c ++ ' ' :: '*' :: '/' :: []) : PyStr) =
      ('/' :: '*' :: ' ' :: (c ++ [' ', '*', '/']) : PyStr) from rfl]
  rw [strip_comments_wrap]

theorem tokenizer_semi_line (k v : PyStr)
    (hk1 : '\n' ∉ k) (hk2 : '=' ∉ k)
    (hv1 : '\n' ∉ v) (hv2 : '=' ∉ v) (hv3 : ';' ∉ v) (hv4 : pytrim v = v) :
    interpret_line (k ++ pys " = " ++ v ++ pys ";") =
      .ok ⟨pytrim k, strip_doublequotes v, []⟩ := by
  rw [show pys " = " = ([' ', '=', ' '] : PyStr) from rfl,
      show pys ";" = ([';'] : PyStr) from rfl]
  simp only [List.append_assoc, List.cons_append, List.nil_append]
  have hnm : ('\n' : Char) ∉ (k ++ ' ' :: '=' :: ' ' :: (v ++ ';' :: [])) :=
    not_mem_append2 hk1 (not_mem_cons2 (by decide) (not_mem_cons2 (by decide)
      (not_mem_cons2 (by decide) (not_mem_append2 hv1 (by decide)))))
  have hT : ('=' : Char) ∉ (' ' :: (v ++ ';' :: []) : PyStr) :=
    not_mem_cons2 (by decide) (not_mem_append2 hv2 (by decide))
  have hA : ('=' : Char) ∉ ltrim (k ++ [' ']) := fun hm =>
    (not_mem_append2 hk2 (by decide)) (mem_of_mem_ltrim hm)
  have hparts : (splitChar '=' (pytrim (replace1 '\n'
        (k ++ ' ' :: '=' :: ' ' :: (v ++ ';' :: []))))).map pytrim =
      [pytrim k, v ++ ';' :: []] := by
    rw [replace1_of_not_mem hnm, pytrim_line_key,
        parts_two hA (fun hm => hT (mem_of_mem_rtrim hm)),
        pytrim_ltrim, pytrim_append_space (by decide), pytrim_rtrim,
        pytrim_cons_space (by decide), pytrim_value hv4, rtrim_nil]
  rw [interpret_line_parts hparts]
  have hsplit : (splitChar ';' (v ++ ';' :: [])).map pytrim = [v, []] := by
    rw [parts_two hv3 (by decide), hv4, pytrim_nil]
  rw [hsplit]
  rw [show lineOther (pytrim k) [v, []] =
      .ok ⟨pytrim k, strip_doublequotes v,
        strip_doublequotes (strip_comments ([] : PyStr))⟩ from rfl]
  rw [show strip_doublequotes (strip_comments ([] : PyStr)) = ([] : PyStr) from by decide]

theorem tokenizer_bare_line (k v : PyStr)
    (hk1 : '\n' ∉ k) (hk2 : '=' ∉ k)
    (hv1 : '\n' ∉ v) (hv2 : '=' ∉ v) (hv3 : ';' ∉ v) (hv4 : pytrim v = v) :
    interpret_line (k ++ pys " = " ++ v) =
      .ok ⟨pytrim k, strip_doublequotes v, []⟩ := by
  rw [show pys " = " = ([' ', '=', ' '] : PyStr) from rfl]
  simp only [List.append_assoc, List.cons_append, List.nil_append]
  have hnm : ('\n' : Char) ∉ (k ++ ' ' :: '=' :: ' ' :: v) :=
    not_mem_append2 hk1 (not_mem_cons2 (by decide) (not_mem_cons2 (by decide)
      (not_mem_cons2 (by decide) hv1)))
  have hT : ('=' : Char) ∉ (' ' :: v : PyStr) := not_mem_cons2 (by decide) hv2
  have hA : ('=' : Char) ∉ ltrim (k ++ [' ']) := fun hm =>
    (not_mem_append2 hk2 (by decide)) (mem_of_mem_ltrim hm)
  have hparts : (splitChar '=' (pytrim (replace1 '\n'
        (k ++ ' ' :: '=' :: ' ' :: v)))).map pytrim = [pytrim k, v] := by
    rw [replace1_of_not_mem hnm,
        show (k ++ ' ' :: '=' :: ' ' :: v) = k ++ (' ' :: '=' :: (' ' :: v)) from rfl,
        pytrim_line_key,
        parts_two hA (fun hm => hT (mem_of_mem_rtrim hm)),
        pytrim_ltrim, pytrim_append_space (by decide), pytrim_rtrim,
        pytrim_cons_space (by decide), hv4]
  rw [interpret_line_parts hparts]
  have hsplit : (splitChar ';' v).map pytrim = [v] := by
    rw [splitChar_of_not_mem hv3,
        show (List.map pytrim [v]) = [pytrim v] from rfl, hv4]
  rw [hsplit]
  rfl

/-- Claim C1: for every valid block-body line `K = V; /* C */` the tokenizer
returns key `K` trimmed, value `V` with double quotes removed, and comment
`C` with the comment markers removed, trimmed and with double quotes removed
(`strip_doublequotes (strip_comments C)`); and for the comment-free forms
`K = V;` and `K = V` the returned comment is the empty string. -/
theorem C1_tokenizer_triples (k v c : PyStr)
    (hk1 : '\n' ∉ k) (hk2 : '=' ∉ k)
    (hv1 : '\n' ∉ v) (hv2 : '=' ∉ v) (hv3 : ';' ∉ v) (hv4 : pytrim v = v)
    (hc1 : '\n' ∉ c) (hc2 : '=' ∉ c) (hc3 : ';' ∉ c) :
    interpret_line (k ++ pys " = " ++ v ++ pys "; /* " ++ c ++ pys " */") =
      .ok ⟨pytrim k, strip_doublequotes v, strip_doublequotes (strip_comments c)⟩ ∧
    interpret_line (k ++ pys " = " ++ v ++ pys ";") =
      .ok ⟨pytrim k, strip_doublequotes v, []⟩ ∧
    interpret_line (k ++ pys " = " ++ v) =
      .ok ⟨pytrim k, strip_doublequotes v, []⟩ :=
  ⟨tokenizer_comment_line k v c hk1 hk2 hv1 hv2 hv3 hv4 hc1 hc2 hc3,
   tokenizer_semi_line k v hk1 hk2 hv1 hv2 hv3 hv4,
   tokenizer_bare_line k v hk1 hk2 hv1 hv2 hv3 hv4⟩

/-- Witness for C1 at a concrete line. -/
theorem C1_tokenizer_triples_witness :
    interpret_line (pys "NodesTotal" ++ pys " = " ++ pys "10" ++ pys "; /* " ++
        pys "\"ok\"" ++ pys " */") =
      .ok ⟨pytrim (pys "NodesTotal"), strip_doublequotes (pys "10"),
           strip_doublequotes (strip_comments (pys "\"ok\""))⟩ :=
  (C1_tokenizer_triples (pys "NodesTotal") (pys "10") (pys "\"ok\"")
    (by decide) (by decide) (by decide) (by decide) (by decide) (by decide)
    (by decide) (by decide) (by decide)).1

theorem lineOther_isOk {p0 : PyStr} : ∀ {other : List PyStr}, other ≠ [] →
    ∃ val com, lineOther p0 other = .ok ⟨p0, val, com⟩
  | [], h => absurd rfl h
  | [v], _ => ⟨strip_doublequotes v, [], rfl⟩
  | [v, c], _ => ⟨strip_doublequotes v, strip_doublequotes (strip_comments c), rfl⟩
  | v :: _ :: _ :: _, _ => ⟨strip_doublequotes v, [], rfl⟩

/-- Counterexample to claim C2: on the line `a=b=c` the tokenizer of the code
returns value `b` (it splits on every `=` and uses only `parts[1]`), while
the spec-side first-split tokenizer `interpret_line_firstSplit` returns the
entire remainder `b=c` as the value; the two disagree. -/
theorem C2_first_split_cex :
    interpret_line (pys "a=b=c") = .ok ⟨pys "a", pys "b", []⟩ ∧
    interpret_line_firstSplit (pys "a=b=c") = .ok ⟨pys "a", pys "b=c", []⟩ ∧
    interpret_line (pys "a=b=c") ≠ interpret_line_firstSplit (pys "a=b=c") :=
  ⟨by decide, by decide, by decide⟩

/-- Claim C2 amended: the tokenizer splits the line on EVERY `=`; the key is
the trimmed text left of the first `=`, and the value/comment are taken from
the text strictly between the first and the second `=` only — everything
from the second `=` onwards is discarded and never affects the result. -/
theorem C2_split_all_equals (a b cc : PyStr)
    (ha1 : '\n' ∉ a) (ha2 : '=' ∉ a) (ha4 : pytrim a = a)
    (hb1 : '\n' ∉ b) (hb2 : '=' ∉ b) (hb4 : pytrim b = b) :
    interpret_line (a ++ pys "=" ++ b ++ pys "=" ++ cc) =
      interpret_line (a ++ pys "=" ++ b) ∧
    ∃ val com, interpret_line (a ++ pys "=" ++ b ++ pys "=" ++ cc) =
      .ok ⟨a, val, com⟩ := by
  rw [show pys "=" = (['='] : PyStr) from rfl]
  simp only [List.append_assoc, List.cons_append, List.nil_append]
  have hrepl : replace1 '\n' (a ++ '=' :: (b ++ '=' :: cc)) =
      a ++ '=' :: (b ++ '=' :: replace1 '\n' cc) := by
    rw [replace1_append, replace1_cons_ne (by decide), replace1_append,
        replace1_cons_ne (by decide), replace1_of_not_mem ha1,
        replace1_of_not_mem hb1]
  have hparts1 : (splitChar '=' (pytrim (replace1 '\n'
        (a ++ '=' :: (b ++ '=' :: cc))))).map pytrim =
      a :: b :: (splitChar '=' (rtrim (replace1 '\n' cc))).map pytrim := by
    rw [hrepl, pytrim_line_eq, ltrim_eq_self_of_pytrim ha4, rtrim_append,
        rtrim_cons_nonspace (by decide)]
    rw [if_neg (by simp)]
    rw [splitChar_append_cons ha2, splitChar_append_cons hb2]
    rw [show ∀ r : List PyStr, (a :: b :: r).map pytrim =
        pytrim a :: pytrim b :: r.map pytrim from fun r => rfl]
    rw [ha4, hb4]
  have hparts2 : (splitChar '=' (pytrim (replace1 '\n' (a ++ '=' :: b)))).map
      pytrim = [a, b] := by
    rw [replace1_append, replace1_cons_ne (by decide),
        replace1_of_not_mem ha1, replace1_of_not_mem hb1,
        pytrim_line_eq, ltrim_eq_self_of_pytrim ha4, rtrim_eq_self_of_pytrim hb4,
        parts_two ha2 hb2, ha4, hb4]
  rw [interpret_line_parts hparts1, interpret_line_parts hparts2]
  refine ⟨rfl, ?_⟩
  have hne : (splitChar ';' b).map pytrim ≠ [] := by
    intro hc
    exact splitChar_ne_nil ';' b (List.map_eq_nil_iff.mp hc)
  exact lineOther_isOk hne

/-- Witness for the amended C2 at a concrete line with two `=` characters. -/
theorem C2_split_all_equals_witness :
    interpret_line (pys "key" ++ pys "=" ++ pys "val" ++ pys "=" ++ pys "junk") =
      interpret_line (pys "key" ++ pys "=" ++ pys "val") :=
  (C2_split_all_equals (pys "key") (pys "val") (pys "junk")
    (by decide) (by decide) (by decide) (by decide) (by decide) (by decide)).1

/-- Counterexample to claim C3: on the line `a=b;c;d`, whose right-hand side
has two `;`, the tokenizer returns the EMPTY comment — the second segment
`c` (which the claim says becomes the comment) is not used. -/
theorem C3_two_semicolons_cex :
    interpret_line (pys "a=b;c;d") = .ok ⟨pys "a", pys "b", []⟩ ∧
    ([] : PyStr) ≠ strip_doublequotes (strip_comments (pytrim (pys "c"))) :=
  ⟨by decide, by decide⟩

/-- Claim C3 amended: when the right-hand side of the `=` contains more than
one `;` (so it splits into three or more segments), the value is still the
first segment with double quotes removed, but the comment is the EMPTY
string: the second and all later segments are discarded (the comment is
taken from the second segment only when there are exactly two segments). -/
theorem C3_extra_semicolons_discarded (a b c d : PyStr)
    (ha1 : '\n' ∉ a) (ha2 : '=' ∉ a)
    (hb1 : '\n' ∉ b) (hb2 : '=' ∉ b) (hb3 : ';' ∉ b) (hb4 : pytrim b = b)
    (hc2 : '=' ∉ c) (hc3 : ';' ∉ c) (hd2 : '=' ∉ d) :
    interpret_line (a ++ pys "=" ++ b ++ pys ";" ++ c ++ pys ";" ++ d) =
      .ok ⟨pytrim a, strip_doublequotes b, []⟩ := by
  rw [show pys "=" = (['='] : PyStr) from rfl,
      show pys ";" = ([';'] : PyStr) from rfl]
  simp only [List.append_assoc, List.cons_append, List.nil_append]
  have hrepl : replace1 '\n' (a ++ '=' :: (b ++ ';' :: (c ++ ';' :: d))) =
      a ++ '=' :: (b ++ ';' :: (replace1 '\n' c ++ ';' :: replace1 '\n' d)) := by
    rw [replace1_append, replace1_cons_ne (by decide), replace1_append,
        replace1_cons_ne (by decide), replace1_append,
        replace1_cons_ne (by decide), replace1_of_not_mem ha1,
        replace1_of_not_mem hb1]
  have hT : rtrim (b ++ ';' :: (replace1 '\n' c ++ ';' :: replace1 '\n' d)) =
      b ++ ';' :: (replace1 '\n' c ++ ';' :: rtrim (replace1 '\n' d)) := by
    rw [rtrim_append, rtrim_cons_nonspace (by decide), rtrim_append,
        rtrim_cons_nonspace (by decide)]
    rw [if_neg (by simp), if_neg (by simp)]
  have hmem1 : ('=' : Char) ∉ a := ha2
  have hparts : (splitChar '=' (pytrim (replace1 '\n'
        (a ++ '=' :: (b ++ ';' :: (c ++ ';' :: d)))))).map pytrim =
      pytrim a :: (b ++ ';' :: (replace1 '\n' c ++ ';' ::
        rtrim (replace1 '\n' d))) :: [] := by
    rw [hrepl, pytrim_line_eq, hT]
    have hrest : ('=' : Char) ∉ (b ++ ';' :: (replace1 '\n' c ++ ';' ::
        rtrim (replace1 '\n' d))) :=
      not_mem_append2 hb2 (not_mem_cons2 (by decide) (not_mem_append2
        (fun hm => hc2 (mem_of_mem_replace1 hm))
        (not_mem_cons2 (by decide)
          (fun hm => hd2 (mem_of_mem_replace1 (mem_of_mem_rtrim hm))))))
    rw [show ltrim a ++ '=' :: (b ++ ';' :: (replace1 '\n' c ++ ';' ::
          rtrim (replace1 '\n' d))) = ltrim a ++ '=' :: (b ++ ';' ::
          (replace1 '\n' c ++ ';' :: rtrim (replace1 '\n' d))) from rfl]
    have hla : ('=' : Char) ∉ ltrim a := fun hm => ha2 (mem_of_mem_ltrim hm)
    rw [parts_two hla hrest, pytrim_ltrim]
    have hpB : pytrim (b ++ ';' :: (replace1 '\n' c ++ ';' ::
        rtrim (replace1 '\n' d))) = b ++ ';' :: (replace1 '\n' c ++ ';' ::
        rtrim (replace1 '\n' d)) := by
      rw [pytrim_value hb4, rtrim_append, rtrim_cons_nonspace (by decide),
          rtrim_idem]
      rw [if_neg (by simp)]
    rw [hpB]
  rw [interpret_line_parts hparts]
  have hsplit : splitChar ';' (b ++ ';' :: (replace1 '\n' c ++ ';' ::
      rtrim (replace1 '\n' d))) = b :: replace1 '\n' c ::
      splitChar ';' (rtrim (replace1 '\n' d)) := by
    rw [splitChar_append_cons hb3,
        splitChar_append_cons (fun hm => hc3 (mem_of_mem_replace1 hm))]
  rw [hsplit]
  obtain ⟨q, qs, hq⟩ : ∃ q qs, splitChar ';' (rtrim (replace1 '\n' d)) = q :: qs := by
    cases hsc : splitChar ';' (rtrim (replace1 '\n' d)) with
    | nil => exact absurd hsc (splitChar_ne_nil ';' _)
    | cons q qs => exact ⟨q, qs, rfl⟩
  rw [hq]
  rw [show (b :: replace1 '\n' c :: q :: qs).map pytrim =
      pytrim b :: pytrim (replace1 '\n' c) :: pytrim q :: qs.map pytrim from rfl]
  rw [hb4]
  rfl

/-- Witness for the amended C3 at a concrete line with two `;`. -/
theorem C3_extra_semicolons_discarded_witness :
    interpret_line (pys "a" ++ pys "=" ++ pys "b" ++ pys ";" ++ pys "c" ++
        pys ";" ++ pys "d") = .ok ⟨pytrim (pys "a"), strip_doublequotes (pys "b"), []⟩ :=
  C3_extra_semicolons_discarded (pys "a") (pys "b") (pys "c") (pys "d")
    (by decide) (by decide) (by decide) (by decide) (by decide) (by decide)
    (by decide) (by decide) (by decide)

/-- Counterexample to claim C4: tokenizing the `=`-free line `just a line`
fails precisely with the Python index-out-of-range error (`parts[1]` on a
one-element list) — not with a structured malformed-line error, which the
code does not have. -/
theorem C4_no_equals_cex :
    interpret_line (pys "just a line") = .error PyError.indexError := by decide

/-- Claim C4 amended: for every block-body line containing no `=`, the
tokenizer fails with the index-out-of-range error `IndexError` (the code
subscripts `parts[1]` of a one-element split with no guard); there is no
structured malformed-line error in the code. -/
theorem C4_no_equals_index_error (line : PyStr) (h : '=' ∉ line) :
    interpret_line line = .error PyError.indexError := by
  have h1 : ('=' : Char) ∉ replace1 '\n' line :=
    fun hm => h (mem_of_mem_replace1 hm)
  have h2 : ('=' : Char) ∉ pytrim (replace1 '\n' line) :=
    fun hm => h1 (mem_of_mem_pytrim hm)
  have hparts : (splitChar '=' (pytrim (replace1 '\n' line))).map pytrim =
      [pytrim (pytrim (replace1 '\n' line))] := by
    rw [splitChar_of_not_mem h2]
    rfl
  exact interpret_line_one hparts

/-- Witness for the amended C4 at a concrete line. -/
theorem C4_no_equals_index_error_witness :
    interpret_line (pys "no equals sign here") = .error PyError.indexError :=
  C4_no_equals_index_error (pys "no equals sign here") (by decide)

theorem lookupC_error : ∀ (contents : Contents) (k : PyStr) (e : PyError),
    lookupC contents k = .error e → e = .keyError k
  | [], k, e, h => by
    simp only [lookupC, Except.error.injEq] at h
    exact h.symm
  | (k2, l) :: rest, k, e, h => by
    by_cases hk : k2 = k
    · simp only [lookupC, if_pos hk] at h
      exact Except.noConfusion h
    · simp only [lookupC, if_neg hk] at h
      exact lookupC_error rest k e h

theorem closeBlock_badType {st : PState} (h5 : badTypeB st.contents = true) :
    closeBlock st = .error (.keyError (pys "Type")) ∨
    closeBlock st = .error (.keyError (pys "Unknown block Type")) := by
  have h5b := h5
  unfold badTypeB at h5b
  unfold closeBlock
  cases hty : lookupC st.contents (pys "Type") with
  | error e =>
    have he := lookupC_error _ _ _ hty
    rw [he, bindE_err]
    exact Or.inl rfl
  | ok ty =>
    rw [hty] at h5b
    simp only [Bool.and_eq_true, Bool.not_eq_true', beq_eq_false_iff_ne] at h5b
    obtain ⟨⟨hne1, hne2⟩, hne3⟩ := h5b
    simp only [bindE_ok]
    rw [if_neg hne1, if_neg hne2, if_neg hne3]
    exact Or.inr rfl

/-- Claim C5: when a block closes whose accumulated `Type` field is missing
or none of `DagStatus`, `NodeStatus`, `StatusEnd`, processing of the file
fails with the `KeyError` of the block-close dispatch (the code's embodiment
of `UnknownBlockTypeError`): the error propagates past the rest of the file
and no record set is handed to the renderer. -/
theorem C5_unknown_block_type (lines rest : List PyStr) (ln : PyStr) (st : PState)
    (h1 : lines.foldlM processLine initState = .ok st)
    (h2 : pyStartswith (pys "[") ln = false)
    (h3 : pyContains '}' ln = false)
    (h4 : pyStartswith (pys "]") ln = true)
    (h5 : badTypeB st.contents = true) :
    (∃ e, process (lines ++ ln :: rest) = .error e ∧
      (e = .keyError (pys "Type") ∨ e = .keyError (pys "Unknown block Type"))) ∧
    ∀ r, process (lines ++ ln :: rest) ≠ .ok r := by
  have hstep : processLine st ln = closeBlock st := by
    unfold processLine
    rw [h2, h3, h4]
    simp
  have hpl : ∃ e0, processLine st ln = .error e0 ∧
      (e0 = .keyError (pys "Type") ∨ e0 = .keyError (pys "Unknown block Type")) := by
    rcases closeBlock_badType h5 with hc | hc
    · exact ⟨.keyError (pys "Type"), by rw [hstep, hc], Or.inl rfl⟩
    · exact ⟨.keyError (pys "Unknown block Type"), by rw [hstep, hc], Or.inr rfl⟩
  obtain ⟨e0, hpl1, hpl2⟩ := hpl
  have hfold : (lines ++ ln :: rest).foldlM processLine initState = .error e0 := by
    rw [foldlME_append, h1, bindE_ok, List.foldlM_cons, hpl1, bindE_err]
  constructor
  · refine ⟨e0, ?_, hpl2⟩
    unfold process
    rw [hfold]
  · intro r hr
    unfold process at hr
    rw [hfold] at hr
    cases hr

/-- Witness for C5: a file whose single block has `Type = "Bogus"`. -/
theorem C5_unknown_block_type_witness :
    ∃ e, process ([pys "[", pys "Type = \"Bogus\";"] ++ pys "]" :: []) = .error e ∧
      (e = .keyError (pys "Type") ∨ e = .keyError (pys "Unknown block Type")) :=
  (C5_unknown_block_type [pys "[", pys "Type = \"Bogus\";"] [] (pys "]")
    ⟨none, [], none, [(pys "Type", ⟨pys "Type", pys "Bogus", []⟩)], true⟩
    (by decide) (by decide) (by decide) (by decide) (by decide)).1

/-- Counterexample to claim C6: on a file with zero blocks the code fails
with the Python `AttributeError` raised by
`dag_status.node_statuses = node_statuses` on `None` — there is no
structured missing-DAG-status error in the code. -/
theorem C6_zero_blocks_cex : process [] = .error PyError.attributeError := by decide

/-- Claim C6 amended: for every input file that is fully consumed without any
`DagStatus` block having been seen (`dag_status` still `None` after the
loop), `process` fails with the `AttributeError` of the back-reference
assignment `dag_status.node_statuses = node_statuses`, not with a
structured `MissingDagStatusError`. -/
theorem C6_missing_dag_attribute_error (lines : List PyStr) (st : PState)
    (h1 : lines.foldlM processLine initState = .ok st)
    (h2 : st.dag_status = none) :
    process lines = .error PyError.attributeError := by
  obtain ⟨dag, nodes, se, cont, sc⟩ := st
  simp only [PState.dag_status] at h2
  subst h2
  unfold process
  rw [h1]

/-- Witness for the amended C6: a file with a single `StatusEnd` block and
no `DagStatus` block. -/
theorem C6_missing_dag_attribute_error_witness :
    process [pys "[", pys "Type = \"StatusEnd\";",
      pys "EndTime = 0; /* \"t\" */", pys "NextUpdate = 0; /* \"u\" */", pys "]"] =
      .error PyError.attributeError :=
  C6_missing_dag_attribute_error _
    ⟨none, [], some ⟨pys "t", pys "u"⟩, [], false⟩
    (by decide) (by decide)

theorem process_ok_result {lines : List PyStr} {r : ProcResult}
    (h : process lines = .ok r) :
    ∃ st d, lines.foldlM processLine initState = .ok st ∧
      st.dag_status = some d ∧
      r = ⟨{ d with node_statuses := st.node_statuses }, st.node_statuses,
           st.status_end⟩ := by
  unfold process at h
  cases hf : lines.foldlM processLine initState with
  | error e =>
    rw [hf] at h
    exact Except.noConfusion h
  | ok st =>
    rw [hf] at h
    have h2 : (match st.dag_status with
      | none => (Except.error PyError.attributeError : Except PyError ProcResult)
      | some d => Except.ok ⟨{ d with node_statuses := st.node_statuses },
          st.node_statuses, st.status_end⟩) = Except.ok r := h
    cases hd : st.dag_status with
    | none =>
      rw [hd] at h2
      exact Except.noConfusion h2
    | some d =>
      rw [hd] at h2
      exact ⟨st, d, rfl, hd, (Except.ok.inj h2).symm⟩

theorem process_attach {lines : List PyStr} {r : ProcResult}
    (h : process lines = .ok r) :
    r.dag_status.node_statuses = r.node_statuses := by
  obtain ⟨st, d, _, _, hr⟩ := process_ok_result h
  subst hr
  rfl

theorem pctString_ok {num den : Int} {s : PyStr} (h : pctString num den = .ok s) :
    den ≠ 0 ∧ (0 < den → s = format1f (100 * num) den) := by
  unfold pctString at h
  by_cases h0 : den = 0
  · rw [if_pos h0] at h
    exact Except.noConfusion h
  · rw [if_neg h0] at h
    by_cases h1 : den < 0
    · rw [if_pos h1] at h
      exact ⟨h0, fun hp => absurd hp (by omega)⟩
    · rw [if_neg h1] at h
      exact ⟨h0, fun _ => (Except.ok.inj h).symm⟩

theorem mkDagStatus_ok {t ds nt nd np nq npo nr nu nf jh ji : PyStr}
    {d : DagStatus} (h : mkDagStatus t ds nt nd np nq npo nr nu nf jh ji = .ok d) :
    d.nodes_total ≠ 0 ∧ (0 < d.nodes_total →
      d.nodes_done_percent = format1f (100 * d.nodes_done) d.nodes_total) := by
  unfold mkDagStatus at h
  obtain ⟨a1, h1, h⟩ := exceptBind_eq_ok h
  obtain ⟨a2, h2, h⟩ := exceptBind_eq_ok h
  obtain ⟨a3, h3, h⟩ := exceptBind_eq_ok h
  obtain ⟨a4, h4, h⟩ := exceptBind_eq_ok h
  obtain ⟨a5, h5, h⟩ := exceptBind_eq_ok h
  obtain ⟨a6, h6, h⟩ := exceptBind_eq_ok h
  obtain ⟨a7, h7, h⟩ := exceptBind_eq_ok h
  obtain ⟨a8, h8, h⟩ := exceptBind_eq_ok h
  obtain ⟨a9, h9, h⟩ := exceptBind_eq_ok h
  obtain ⟨a10, h10, h⟩ := exceptBind_eq_ok h
  obtain ⟨pct, hpct, h⟩ := exceptBind_eq_ok h
  have hd := Except.ok.inj h
  subst hd
  simpa using pctString_ok hpct

theorem buildDag_ok {contents : Contents} {d : DagStatus}
    (h : buildDag contents = .ok d) :
    d.nodes_total ≠ 0 ∧ (0 < d.nodes_total →
      d.nodes_done_percent = format1f (100 * d.nodes_done) d.nodes_total) := by
  unfold buildDag at h
  obtain ⟨l1, _, h⟩ := exceptBind_eq_ok h
  obtain ⟨l2, _, h⟩ := exceptBind_eq_ok h
  obtain ⟨l3, _, h⟩ := exceptBind_eq_ok h
  obtain ⟨l4, _, h⟩ := exceptBind_eq_ok h
  obtain ⟨l5, _, h⟩ := exceptBind_eq_ok h
  obtain ⟨l6, _, h⟩ := exceptBind_eq_ok h
  obtain ⟨l7, _, h⟩ := exceptBind_eq_ok h
  obtain ⟨l8, _, h⟩ := exceptBind_eq_ok h
  obtain ⟨l9, _, h⟩ := exceptBind_eq_ok h
  obtain ⟨l10, _, h⟩ := exceptBind_eq_ok h
  obtain ⟨l11, _, h⟩ := exceptBind_eq_ok h
  obtain ⟨l12, _, h⟩ := exceptBind_eq_ok h
  exact mkDagStatus_ok h

theorem closeBlock_ok_cases {st st' : PState} (h : closeBlock st = .ok st') :
    ∃ ty, lookupC st.contents (pys "Type") = .ok ty ∧
      ((ty.value = pys "DagStatus" ∧ ∃ d, buildDag st.contents = .ok d ∧
        st' = { st with dag_status := some d, contents := [], store_contents := false }) ∨
      (ty.value = pys "NodeStatus" ∧ ∃ n, buildNode st.contents = .ok n ∧
        st' = { st with node_statuses := st.node_statuses ++ [n], contents := [], store_contents := false }) ∨
      (ty.value = pys "StatusEnd" ∧ ∃ e, buildEnd st.contents = .ok e ∧
        st' = { st with status_end := some e, contents := [], store_contents := false })) := by
  unfold closeBlock at h
  obtain ⟨ty, hty, h⟩ := exceptBind_eq_ok h
  refine ⟨ty, hty, ?_⟩
  by_cases c1 : ty.value = pys "DagStatus"
  · simp only [if_pos c1] at h
    obtain ⟨d, hd, h⟩ := exceptBind_eq_ok h
    exact Or.inl ⟨c1, d, hd, (Except.ok.inj h).symm⟩
  · simp only [if_neg c1] at h
    by_cases c2 : ty.value = pys "NodeStatus"
    · simp only [if_pos c2] at h
      obtain ⟨n, hn, h⟩ := exceptBind_eq_ok h
      exact Or.inr (Or.inl ⟨c2, n, hn, (Except.ok.inj h).symm⟩)
    · simp only [if_neg c2] at h
      by_cases c3 : ty.value = pys "StatusEnd"
      · simp only [if_pos c3] at h
        obtain ⟨e, he2, h⟩ := exceptBind_eq_ok h
        exact Or.inr (Or.inr ⟨c3, e, he2, (Except.ok.inj h).symm⟩)
      · simp only [if_neg c3] at h
        exact Except.noConfusion h

theorem processLine_ok_cases {st : PState} {ln : PyStr} {st' : PState}
    (h : processLine st ln = .ok st') :
    (st' = { st with store_contents := true }) ∨
    ((pyStartswith (pys "[") ln || pyContains '}' ln) = false ∧
      pyStartswith (pys "]") ln = true ∧ closeBlock st = .ok st') ∨
    (st' = { st with store_contents := false }) ∨
    (∃ l, interpret_line ln = .ok l ∧
      st' = { st with contents := (l.key, l) :: st.contents }) ∨
    st' = st := by
  unfold processLine at h
  by_cases c1 : (pyStartswith (pys "[") ln || pyContains '}' ln) = true
  · rw [if_pos c1] at h
    exact Or.inl (Except.ok.inj h).symm
  · rw [if_neg c1] at h
    by_cases c2 : pyStartswith (pys "]") ln = true
    · rw [if_pos c2] at h
      exact Or.inr (Or.inl ⟨by simpa using c1, c2, h⟩)
    · rw [if_neg c2] at h
      by_cases c3 : pyContains '{' ln = true
      · rw [if_pos c3] at h
        exact Or.inr (Or.inr (Or.inl (Except.ok.inj h).symm))
      · rw [if_neg c3] at h
        by_cases c4 : st.store_contents = true
        · rw [if_pos c4] at h
          obtain ⟨l, hl, h⟩ := exceptBind_eq_ok h
          exact Or.inr (Or.inr (Or.inr (Or.inl ⟨l, hl, (Except.ok.inj h).symm⟩)))
        · rw [if_neg c4] at h
          exact Or.inr (Or.inr (Or.inr (Or.inr (Except.ok.inj h).symm)))

theorem processLine_dag_inv {st : PState} {ln : PyStr} {st' : PState}
    (h : processLine st ln = .ok st') {d : DagStatus}
    (hd : st'.dag_status = some d) :
    st.dag_status = some d ∨
    (d.nodes_total ≠ 0 ∧ (0 < d.nodes_total →
      d.nodes_done_percent = format1f (100 * d.nodes_done) d.nodes_total)) := by
  rcases processLine_ok_cases h with h1 | ⟨_, _, h2⟩ | h3 | ⟨l, _, h4⟩ | h5
  · subst h1
    exact Or.inl hd
  · obtain ⟨ty, hty, hcases⟩ := closeBlock_ok_cases h2
    rcases hcases with ⟨_, d0, hbd, hst⟩ | ⟨_, n, _, hst⟩ | ⟨_, e, _, hst⟩
    · subst hst
      have hdd : some d0 = some d := hd
      rw [← Option.some.inj hdd]
      exact Or.inr (buildDag_ok hbd)
    · subst hst
      exact Or.inl hd
    · subst hst
      exact Or.inl hd
  · subst h3
    exact Or.inl hd
  · subst h4
    exact Or.inl hd
  · subst h5
    exact Or.inl hd

theorem foldl_dag_inv : ∀ (lines : List PyStr) (st st' : PState),
    lines.foldlM processLine st = .ok st' → ∀ d, st'.dag_status = some d →
    st.dag_status = some d ∨
    (d.nodes_total ≠ 0 ∧ (0 < d.nodes_total →
      d.nodes_done_percent = format1f (100 * d.nodes_done) d.nodes_total))
  | [], st, st', h, d, hd => by
    rw [List.foldlM_nil] at h
    have h2 : (Except.ok st : Except PyError PState) = .ok st' := h
    rw [Except.ok.inj h2]
    exact Or.inl hd
  | a :: t, st, st', h, d, hd => by
    rw [List.foldlM_cons] at h
    obtain ⟨st1, h1, h2⟩ := exceptBind_eq_ok h
    rcases foldl_dag_inv t st1 st' h2 d hd with hmid | hp
    · exact processLine_dag_inv h1 hmid
    · exact Or.inr hp

/-- Claim C7: for every parsed file, `job_procs_running` equals the number of
`NodeStatus` records with `node_status = STATUS_SUBMITTED` and
`status_details = not_idle`; and the example file with one such node, one
`STATUS_DONE` node, and `NodesTotal = 10` yields `job_procs_running = 1` and
`nodes_running_percent = "10.0"`. -/
theorem C7_job_procs_running :
    (∀ (lines : List PyStr) (r : ProcResult), process lines = .ok r →
      r.dag_status.job_procs_running =
        (r.node_statuses.filter isRunningNode).length) ∧
    (∃ r, process exDone = .ok r ∧ r.dag_status.job_procs_running = 1 ∧
      r.dag_status.nodes_running_percent = .ok (pys "10.0")) := by
  constructor
  · intro lines r h
    unfold DagStatus.job_procs_running
    rw [process_attach h]
  · cases hp : process exDone with
    | error e =>
      have hok : exceptIsOk (process exDone) = true := by decide
      rw [hp] at hok
      exact absurd hok (by simp [exceptIsOk])
    | ok r =>
      refine ⟨r, rfl, ?_, ?_⟩
      · have hc : (process exDone).map
            (fun r => r.dag_status.job_procs_running) = .ok 1 := by decide
        rw [hp] at hc
        simpa [Except.map] using hc
      · have hc : (process exDone).map
            (fun r => r.dag_status.nodes_running_percent) =
            .ok (.ok (pys "10.0")) := by decide
        rw [hp] at hc
        simpa [Except.map] using hc

/-- Witness for C7 at the example file. -/
theorem C7_job_procs_running_witness :
    ∃ r, process exDone = .ok r ∧ r.dag_status.job_procs_running =
      (r.node_statuses.filter isRunningNode).length := by
  cases hp : process exDone with
  | error e =>
    have hok : exceptIsOk (process exDone) = true := by decide
    rw [hp] at hok
    exact absurd hok (by simp [exceptIsOk])
  | ok r => exact ⟨r, rfl, C7_job_procs_running.1 exDone r hp⟩

/-- Claim C8: for every parsed file, `nodes_done_percent` is
`100 * nodes_done / nodes_total` rendered to one decimal place (and in
particular `NodesTotal = 10`, `NodesDone = 3` renders to `"30.0"`);
`nodes_total = 0` makes the constructor fail with `ZeroDivisionError`
rather than produce a record. -/
theorem C8_nodes_done_percent :
    (∀ (lines : List PyStr) (r : ProcResult), process lines = .ok r →
      r.dag_status.nodes_total ≠ 0 ∧ (0 < r.dag_status.nodes_total →
        r.dag_status.nodes_done_percent =
          format1f (100 * r.dag_status.nodes_done) r.dag_status.nodes_total)) ∧
    (∃ r, process exDone = .ok r ∧
      r.dag_status.nodes_done_percent = pys "30.0") ∧
    process exZero = .error PyError.zeroDivisionError := by
  refine ⟨?_, ?_, by decide⟩
  · intro lines r h
    obtain ⟨st, d, hf, hd, hr⟩ := process_ok_result h
    rcases foldl_dag_inv lines initState st hf d hd with hi | hp
    · exact absurd hi (by simp [initState])
    · subst hr
      simpa using hp
  · cases hp : process exDone with
    | error e =>
      have hok : exceptIsOk (process exDone) = true := by decide
      rw [hp] at hok
      exact absurd hok (by simp [exceptIsOk])
    | ok r =>
      refine ⟨r, rfl, ?_⟩
      have hc : (process exDone).map
          (fun r => r.dag_status.nodes_done_percent) = .ok (pys "30.0") := by decide
      rw [hp] at hc
      simpa [Except.map] using hc

/-- Witness for C8 at the example file. -/
theorem C8_nodes_done_percent_witness :
    ∃ r, process exDone = .ok r ∧ r.dag_status.nodes_total ≠ 0 ∧
      (0 < r.dag_status.nodes_total → r.dag_status.nodes_done_percent =
        format1f (100 * r.dag_status.nodes_done) r.dag_status.nodes_total) := by
  cases hp : process exDone with
  | error e =>
    have hok : exceptIsOk (process exDone) = true := by decide
    rw [hp] at hok
    exact absurd hok (by simp [exceptIsOk])
  | ok r => exact ⟨r, rfl, C8_nodes_done_percent.1 exDone r hp⟩

/-- Counterexample to claim C9: in an invocation with two status files where
the first fails to parse (its block has no `Type` key), the whole run fails
with that file's error and the second file — which parses fine on its own —
is never processed. -/
theorem C9_file_error_aborts_cex :
    mainLoop [exNoType, exDone] = .error (.keyError (pys "Type")) ∧
    exceptIsOk (process exDone) = true :=
  ⟨by decide, by decide⟩

/-- Claim C9 amended: errors are NOT file-scoped: the `__main__` loop has no
handler, so when any file's `process` raises, the uncaught exception aborts
the invocation and the remaining files are not processed. -/
theorem C9_error_aborts_run (pre : List (List PyStr)) (acc : List ProcResult)
    (f : List PyStr) (rest : List (List PyStr)) (e : PyError)
    (h1 : pre.foldlM mainStep ([] : List ProcResult) = .ok acc)
    (h2 : process f = .error e) :
    mainLoop (pre ++ f :: rest) = .error e := by
  unfold mainLoop
  rw [foldlME_append, h1, bindE_ok, List.foldlM_cons]
  have hms : mainStep acc f = .error e := by
    unfold mainStep
    rw [h2]
  rw [hms, bindE_err]

/-- Witness for the amended C9. -/
theorem C9_error_aborts_run_witness :
    mainLoop ([] ++ exNoType :: [exDone]) = .error (.keyError (pys "Type")) :=
  C9_error_aborts_run [] [] exNoType [exDone] (.keyError (pys "Type"))
    (by decide) (by decide)

theorem closeBlock_node {st : PState} {l : Line} {n : NodeStatus}
    (hty : lookupC st.contents (pys "Type") = .ok l)
    (hval : l.value = pys "NodeStatus")
    (hn : buildNode st.contents = .ok n) :
    closeBlock st = .ok { st with node_statuses := st.node_statuses ++ [n], contents := [], store_contents := false } := by
  unfold closeBlock
  simp only [hty, bindE_ok]
  rw [hval, if_neg (by decide), if_pos rfl]
  simp only [hn, bindE_ok]

/-- Claim C10: the node list handed to the renderer contains exactly one
`NodeStatus` record per `NodeStatus` block, appended in the order the blocks
close: every successful `processLine` step either appends exactly the node
built from the accumulated contents — and then the line is a block close and
the accumulated `Type` is `NodeStatus` — or leaves the node list unchanged;
in particular a close of a block whose `Type` is anything other than
`NodeStatus` (a `DagStatus` or `StatusEnd` close) never changes the list,
and neither does any non-close line.  The list is attached as the
`DagStatus` back-reference handed to the renderer, and the example file with
`NodeStatus` blocks before and after the `DagStatus` block and a `StatusEnd`
block in between yields exactly `[jobA, jobB]` in closing order. -/
theorem C10_node_list :
    (∀ (st : PState) (ln : PyStr) (st' : PState), processLine st ln = .ok st' →
      (∃ l n, (pyStartswith (pys "[") ln || pyContains '}' ln) = false ∧
        pyStartswith (pys "]") ln = true ∧
        lookupC st.contents (pys "Type") = .ok l ∧ l.value = pys "NodeStatus" ∧
        buildNode st.contents = .ok n ∧
        st'.node_statuses = st.node_statuses ++ [n]) ∨
      st'.node_statuses = st.node_statuses) ∧
    (∀ (st : PState) (ln : PyStr) (st' : PState) (l : Line) (n : NodeStatus),
      processLine st ln = .ok st' →
      pyStartswith (pys "[") ln = false → pyContains '}' ln = false →
      pyStartswith (pys "]") ln = true →
      lookupC st.contents (pys "Type") = .ok l → l.value = pys "NodeStatus" →
      buildNode st.contents = .ok n →
      st'.node_statuses = st.node_statuses ++ [n]) ∧
    (∀ (st : PState) (ln : PyStr) (st' : PState) (l : Line),
      processLine st ln = .ok st' →
      lookupC st.contents (pys "Type") = .ok l → l.value ≠ pys "NodeStatus" →
      st'.node_statuses = st.node_statuses) ∧
    (∀ (st : PState) (ln : PyStr) (st' : PState), processLine st ln = .ok st' →
      pyStartswith (pys "]") ln = false → st'.node_statuses = st.node_statuses) ∧
    (∀ (lines : List PyStr) (r : ProcResult), process lines = .ok r →
      r.dag_status.node_statuses = r.node_statuses) ∧
    (∃ r, process exMixed = .ok r ∧
      r.node_statuses.map NodeStatus.node = [pys "jobA", pys "jobB"] ∧
      r.status_end = some ⟨pys "Wed Jul 29 12:35:07 2015",
                           pys "Wed Jul 29 12:36:07 2015"⟩) := by
  refine ⟨?_, ?_, ?_, ?_, ?_, ?_⟩
  · intro st ln st' h
    rcases processLine_ok_cases h with h1 | ⟨hc1, hc2, h2⟩ | h3 | ⟨l, _, h4⟩ | h5
    · subst h1
      exact Or.inr rfl
    · obtain ⟨ty, hty, hcases⟩ := closeBlock_ok_cases h2
      rcases hcases with ⟨_, d, _, hst⟩ | ⟨hv, n, hn, hst⟩ | ⟨_, e, _, hst⟩
      · subst hst
        exact Or.inr rfl
      · subst hst
        exact Or.inl ⟨ty, n, hc1, hc2, hty, hv, hn, rfl⟩
      · subst hst
        exact Or.inr rfl
    · subst h3
      exact Or.inr rfl
    · subst h4
      exact Or.inr rfl
    · subst h5
      exact Or.inr rfl
  · intro st ln st' l n h h2 h3 h4 hty hval hn
    have hstep : processLine st ln = closeBlock st := by
      unfold processLine
      rw [h2, h3, h4]
      simp
    rw [hstep, closeBlock_node hty hval hn] at h
    rw [← Except.ok.inj h]
  · intro st ln st' l h hl hlv
    rcases processLine_ok_cases h with h1 | ⟨_, _, h2⟩ | h3 | ⟨l2, _, h4⟩ | h5
    · subst h1
      rfl
    · obtain ⟨ty, hty, hcases⟩ := closeBlock_ok_cases h2
      have hty_l : ty = l := Except.ok.inj (hty.symm.trans hl)
      rcases hcases with ⟨_, d, _, hst⟩ | ⟨hv, n, _, hst⟩ | ⟨_, e, _, hst⟩
      · subst hst
        rfl
      · exact absurd (hty_l ▸ hv) hlv
      · subst hst
        rfl
    · subst h3
      rfl
    · subst h4
      rfl
    · subst h5
      rfl
  · intro st ln st' h hcl
    rcases processLine_ok_cases h with h1 | ⟨_, hc, _⟩ | h3 | ⟨l, _, h4⟩ | h5
    · subst h1
      rfl
    · rw [hcl] at hc
      cases hc
    · subst h3
      rfl
    · subst h4
      rfl
    · subst h5
      rfl
  · intro lines r h
    exact process_attach h
  · cases hp : process exMixed with
    | error e =>
      have hok : exceptIsOk (process exMixed) = true := by decide
      rw [hp] at hok
      exact absurd hok (by simp [exceptIsOk])
    | ok r =>
      refine ⟨r, rfl, ?_, ?_⟩
      · have hc : (process exMixed).map
            (fun r => r.node_statuses.map NodeStatus.node) =
            .ok [pys "jobA", pys "jobB"] := by decide
        rw [hp] at hc
        simpa [Except.map] using hc
      · have hc : (process exMixed).map (fun r => r.status_end) =
            .ok (some ⟨pys "Wed Jul 29 12:35:07 2015",
                       pys "Wed Jul 29 12:36:07 2015"⟩) := by decide
        rw [hp] at hc
        simpa [Except.map] using hc

/-- Witness for C10 at the mixed-order example file. -/
theorem C10_node_list_witness :
    ∃ r, process exMixed = .ok r ∧
      r.dag_status.node_statuses = r.node_statuses := by
  cases hp : process exMixed with
  | error e =>
    have hok : exceptIsOk (process exMixed) = true := by decide
    rw [hp] at hok
    exact absurd hok (by simp [exceptIsOk])
  | ok r => exact ⟨r, rfl, C10_node_list.2.2.2.2.1 exMixed r hp⟩
